import Mathlib

/-!
Shallow embedding of `Sistem_Validasi_Registrasi_Mahasiswa.py`: a student
course-registration validation engine.  The Python source defines data
models (`Course`, `Registration`), three validation rules (`SksLimitRule`,
`PrerequisiteRule`, `JadwalBentrokRule`), a time formatter `format_time`,
and a coordinator `RegistrationService.run_registration` that runs every
rule in order and aggregates the failure messages.
-/

/-- A schedule entry `(day, start_minute, end_minute)`, as in the Python
type alias `ScheduleEntry = Tuple[str, int, int]`. -/
abbrev ScheduleEntry : Type := String × Nat × Nat

/-- `Course` dataclass: code, name, sks (credit weight), prerequisite
codes, schedule. -/
structure Course where
  code : String
  name : String
  sks : Int
  prerequisites : List String
  schedule : List ScheduleEntry
deriving DecidableEq, Repr

/-- `Registration` dataclass: student name, completed course codes,
selected courses. -/
structure Registration where
  student_name : String
  completed_courses : List String
  selected_courses : List Course
deriving DecidableEq, Repr

/-- `format_time`: convert minutes-of-day to `HH:MM`, zero padded
(Python `f"{h:02d}:{m:02d}"`). -/
def format_time (minutes : Nat) : String :=
  let h := minutes / 60
  let m := minutes % 60
  let hs := if h < 10 then "0" ++ toString h else toString h
  let ms := if m < 10 then "0" ++ toString m else toString m
  hs ++ ":" ++ ms

/-- Total SKS of the selected courses:
`sum(c.sks for c in registration.selected_courses)`. -/
def totalSks (reg : Registration) : Int :=
  (reg.selected_courses.map Course.sks).sum

/-- The failure message of `SksLimitRule`. -/
def sksLimitMsg (total max_sks : Int) : String :=
  s!"Total SKS ({total}) melebihi batas maksimum ({max_sks})."

/-- The list of `(course_code, missing_prerequisite)` pairs collected by
`PrerequisiteRule.validate`: for each selected course in order, for each
of its prerequisites in order, the pair is kept when the prerequisite is
not a member of the completed-course set. -/
def missingPrereqs (reg : Registration) : List (String × String) :=
  reg.selected_courses.flatMap fun course =>
    (course.prerequisites.filter
      (fun pre => !(reg.completed_courses.contains pre))).map
      (fun pre => (course.code, pre))

/-- The failure message of `PrerequisiteRule`. -/
def prereqMsg (missing : List (String × String)) : String :=
  let msgs := missing.map fun cp =>
    let c := cp.1
    let p := cp.2
    s!"{c} butuh {p}"
  "Prasyarat tidak terpenuhi: " ++ String.intercalate ", " msgs

/-- A flattened schedule entry tagged with its owning course code:
`(day, start, end, course_code)`. -/
abbrev Entry : Type := String × Nat × Nat × String

/-- Day label of a tagged entry. -/
def Entry.day (e : Entry) : String := e.1

/-- Start minute of a tagged entry. -/
def Entry.start (e : Entry) : Nat := e.2.1

/-- End minute of a tagged entry. -/
def Entry.stop (e : Entry) : Nat := e.2.2.1

/-- Owning course code of a tagged entry. -/
def Entry.course (e : Entry) : String := e.2.2.2

/-- Tag one schedule entry of a course with the course's code
(the `entries.append((day, s, e, course.code))` step). -/
def tagEntry (c : Course) (se : ScheduleEntry) : Entry :=
  (se.1, se.2.1, se.2.2, c.code)

/-- The flattened entry list of a registration, courses in
`selected_courses` order, each course's schedule entries in their given
order. -/
def entriesOf (reg : Registration) : List Entry :=
  reg.selected_courses.flatMap fun course => course.schedule.map (tagEntry course)

/-- The Python conflict test for a pair of tagged entries:
same day and `s_i < e_j and s_j < e_i` (half-open overlap). -/
def conflictB (a b : Entry) : Bool :=
  a.day == b.day && decide (a.start < b.stop) && decide (b.start < a.stop)

/-- The failure message of `JadwalBentrokRule` for the conflicting pair. -/
def bentrokMsg (a b : Entry) : String :=
  let c_i := a.course
  let c_j := b.course
  let start_str := format_time a.start
  let end_str := format_time a.stop
  let start_j_str := format_time b.start
  let end_j_str := format_time b.stop
  s!"Jadwal bentrok antara {c_i} ({start_str}-{end_str}) dan {c_j} ({start_j_str}-{end_j_str})"

/-- The inner loop `for j in range(i+1, len(entries))`: find the first
entry after `e` that conflicts with `e`, returning on the first hit. -/
def findPartner (e : Entry) : List Entry → Option Entry
  | [] => none
  | f :: rest => if conflictB e f then some f else findPartner e rest

/-- The nested loops of `JadwalBentrokRule.validate`: scan outer index
`i` in order; for each, scan the entries after it; return the first
conflicting pair found, else `none`. -/
def findConflict : List Entry → Option (Entry × Entry)
  | [] => none
  | e :: rest =>
    match findPartner e rest with
    | some f => some (e, f)
    | none => findConflict rest

/-- The rule variants: `SksLimitRule(max_sks)`, `PrerequisiteRule`,
`JadwalBentrokRule`, implementations of the `IValidationRule` interface. -/
inductive IValidationRule where
  | SksLimitRule (max_sks : Int)
  | PrerequisiteRule
  | JadwalBentrokRule
deriving DecidableEq, Repr

/-- `validate(registration) -> (passed, message)` for each rule variant,
translated clause by clause from the Python source. -/
def IValidationRule.validate : IValidationRule → Registration → Bool × String
  | .SksLimitRule max_sks, reg =>
    let total := totalSks reg
    if total > max_sks then (false, sksLimitMsg total max_sks)
    else (true, "SKS OK.")
  | .PrerequisiteRule, reg =>
    let missing := missingPrereqs reg
    if missing.isEmpty then (true, "Prasyarat OK.")
    else (false, prereqMsg missing)
  | .JadwalBentrokRule, reg =>
    match findConflict (entriesOf reg) with
    | some (a, b) => (false, bentrokMsg a b)
    | none => (true, "Tidak ada jadwal bentrok.")

/-- The loop of `run_registration`: run each rule in order, appending the
message of each failing rule to the accumulated `errors` list. -/
def runRules (rules : List IValidationRule) (reg : Registration)
    (errors : List String) : List String :=
  match rules with
  | [] => errors
  | r :: rs =>
    let res := r.validate reg
    runRules rs reg (if res.1 then errors else errors ++ [res.2])

/-- `RegistrationService.run_registration`: run all rules collecting
failure messages; `(False, errors)` when any rule failed, else
`(True, ["Validasi sukses."])`. -/
def run_registration (rules : List IValidationRule) (reg : Registration) :
    Bool × List String :=
  let errors := runRules rules reg []
  if errors.isEmpty then (true, ["Validasi sukses."]) else (false, errors)

/-- `minutes(h, m)` helper from the source demo: `h*60 + m`. -/
def minutes (h : Nat) (m : Nat := 0) : Nat := h * 60 + m

/-- Demo course `MAT101`, Monday (Senin) 09:00-11:00. -/
def mat101 : Course :=
  ⟨"MAT101", "Matematika Dasar", 3, [], [("Senin", minutes 9 0, minutes 11 0)]⟩

/-- Demo course `FIS201`, Monday (Senin) 10:30-12:00, requires MAT101. -/
def fis201 : Course :=
  ⟨"FIS201", "Fisika I", 4, ["MAT101"], [("Senin", minutes 10 30, minutes 12 0)]⟩

/-- The demo registration of scenario 4: MAT101 and FIS201 selected
together. -/
def regScenario4 : Registration := ⟨"Ani", ["MAT101"], [mat101, fis201]⟩

/-- `validate` with the diagnostic log sink made explicit: the same
computation as `IValidationRule.validate`, threading the list of log
records the Python `logger.info` / `logger.warning` calls emit.  The
sink is written to and never read. -/
def validateLogged (r : IValidationRule) (reg : Registration)
    (sink : List String) : (Bool × String) × List String :=
  match r with
  | .SksLimitRule max_sks =>
    let total := totalSks reg
    let sink1 := sink ++ [s!"Memeriksa total SKS: {total}/{max_sks}"]
    if total > max_sks then
      let msg := sksLimitMsg total max_sks
      ((false, msg), sink1 ++ [msg])
    else ((true, "SKS OK."), sink1)
  | .PrerequisiteRule =>
    let sink1 := sink ++ ["Memeriksa prasyarat mata kuliah..."]
    let missing := missingPrereqs reg
    if missing.isEmpty then ((true, "Prasyarat OK."), sink1)
    else
      let msg := prereqMsg missing
      ((false, msg), sink1 ++ [msg])
  | .JadwalBentrokRule =>
    let sink1 := sink ++ ["Memeriksa bentrok jadwal..."]
    match findConflict (entriesOf reg) with
    | some (a, b) =>
      let msg := bentrokMsg a b
      ((false, msg), sink1 ++ [msg])
    | none => ((true, "Tidak ada jadwal bentrok."), sink1)

/-- The rule loop of `run_registration` with the log sink threaded. -/
def runRulesLogged (rules : List IValidationRule) (reg : Registration)
    (errors : List String) (sink : List String) :
    List String × List String :=
  match rules with
  | [] => (errors, sink)
  | r :: rs =>
    let res := validateLogged r reg sink
    runRulesLogged rs reg
      (if res.1.1 then errors else errors ++ [res.1.2]) res.2

/-- `run_registration` with the log sink threaded: the entry
`logger.info`, the per-rule records, and the summary
`logger.error` / `logger.info` records. -/
def run_registrationLogged (rules : List IValidationRule)
    (reg : Registration) (sink : List String) :
    (Bool × List String) × List String :=
  let name := reg.student_name
  let sink1 := sink ++ [s!"Memulai validasi pendaftaran untuk: {name}"]
  let res := runRulesLogged rules reg [] sink1
  let errors := res.1
  if errors.isEmpty then
    ((true, ["Validasi sukses."]), res.2 ++ ["Semua validasi berhasil."])
  else
    let n := errors.length
    ((false, errors), res.2 ++ [s!"Validasi gagal dengan {n} error."])

/-- `validate` with explicit state threading: each Python method body
reads `self` and `registration` and contains no assignment to either, so
every branch returns the outcome together with the rule value and the
registration as the source leaves them. -/
def validateSt (r : IValidationRule) (reg : Registration) :
    (Bool × String) × IValidationRule × Registration :=
  match r with
  | .SksLimitRule max_sks =>
    let total := totalSks reg
    if total > max_sks then
      ((false, sksLimitMsg total max_sks), .SksLimitRule max_sks, reg)
    else ((true, "SKS OK."), .SksLimitRule max_sks, reg)
  | .PrerequisiteRule =>
    let missing := missingPrereqs reg
    if missing.isEmpty then ((true, "Prasyarat OK."), .PrerequisiteRule, reg)
    else ((false, prereqMsg missing), .PrerequisiteRule, reg)
  | .JadwalBentrokRule =>
    match findConflict (entriesOf reg) with
    | some (a, b) => ((false, bentrokMsg a b), .JadwalBentrokRule, reg)
    | none => ((true, "Tidak ada jadwal bentrok."), .JadwalBentrokRule, reg)

/-- The rule loop of `run_registration` with the rule list and the
registration threaded as state through every call. -/
def runRulesSt (rules : List IValidationRule) (reg : Registration)
    (errors : List String) :
    List String × List IValidationRule × Registration :=
  match rules with
  | [] => (errors, [], reg)
  | r :: rs =>
    let res := validateSt r reg
    let rest := runRulesSt rs res.2.2
      (if res.1.1 then errors else errors ++ [res.1.2])
    (rest.1, res.2.1 :: rest.2.1, rest.2.2)

/-- `run_registration` returning, besides its result, the rule list and
the registration as left behind by the run. -/
def run_registrationSt (rules : List IValidationRule)
    (reg : Registration) :
    (Bool × List String) × List IValidationRule × Registration :=
  let res := runRulesSt rules reg []
  let errors := res.1
  if errors.isEmpty then ((true, ["Validasi sukses."]), res.2)
  else ((false, errors), res.2)

/-- A course whose schedule entry conflicts with `courseBeta`. -/
def courseAlpha : Course := ⟨"ALFA", "Alfa", 3, [], [("Senin", 0, 10)]⟩

/-- A course whose schedule entry conflicts with `courseAlpha`. -/
def courseBeta : Course := ⟨"BETA", "Beta", 3, [], [("Senin", 5, 15)]⟩

/-- A course whose own two schedule entries overlap on the same day. -/
def courseGamma : Course :=
  ⟨"GAMA", "Gama", 3, [], [("Senin", 100, 110), ("Senin", 105, 115)]⟩

/-- A registration in which `courseGamma` self-conflicts but an earlier
pair (`courseAlpha`, `courseBeta`) conflicts first in scan order. -/
def regMasked : Registration :=
  ⟨"Dewi", [], [courseAlpha, courseBeta, courseGamma]⟩

/-- A registration whose only selected course self-conflicts. -/
def courseKimia : Course :=
  ⟨"KIM", "Kimia", 3, [], [("Senin", 0, 10), ("Senin", 5, 15)]⟩

/-- The registration selecting only `courseKimia`. -/
def regKimia : Registration := ⟨"Eka", [], [courseKimia]⟩

section AggregationLemmas

/-- The error accumulator of `run_registration` appends, in rule order,
exactly the messages of the failing rules. -/
lemma runRules_eq_append (rules : List IValidationRule) (reg : Registration)
    (errors : List String) :
    runRules rules reg errors =
      errors ++ (rules.filter (fun r => !(r.validate reg).1)).map
        (fun r => (r.validate reg).2) := by
  induction rules generalizing errors with
  | nil => simp [runRules]
  | cons r rs ih =>
    by_cases h : (r.validate reg).1
    · simp [runRules, h, ih]
    · simp only [Bool.not_eq_true] at h
      simp [runRules, h, ih]

lemma runRules_nil_eq (rules : List IValidationRule) (reg : Registration) :
    runRules rules reg [] =
      (rules.filter (fun r => !(r.validate reg).1)).map
        (fun r => (r.validate reg).2) := by
  simpa using runRules_eq_append rules reg []

lemma filter_failing_eq_nil_iff_all (rules : List IValidationRule)
    (reg : Registration) :
    rules.filter (fun r => !(r.validate reg).1) = [] ↔
      rules.all (fun r => (r.validate reg).1) = true := by
  simp [List.filter_eq_nil_iff, List.all_eq_true]

end AggregationLemmas

/-- C1: `run_registration` runs every rule in list order without
short-circuit; its boolean is the conjunction of all rule outcomes; its
message list is the failing rules' messages in rule-list order, or the
single success message when all rules pass; its length is the number of
failing rules, or 1 when all pass. -/
theorem run_registration_aggregates (rules : List IValidationRule)
    (reg : Registration) :
    (run_registration rules reg).1 =
        rules.all (fun r => (r.validate reg).1)
    ∧ (run_registration rules reg).2 =
        (if rules.all (fun r => (r.validate reg).1) then ["Validasi sukses."]
         else (rules.filter (fun r => !(r.validate reg).1)).map
           (fun r => (r.validate reg).2))
    ∧ (run_registration rules reg).2.length =
        (if rules.all (fun r => (r.validate reg).1) then 1
         else (rules.filter (fun r => !(r.validate reg).1)).length) := by
  have hrun := runRules_nil_eq rules reg
  have hiff := filter_failing_eq_nil_iff_all rules reg
  by_cases hall : rules.all (fun r => (r.validate reg).1) = true
  · have hnil : rules.filter (fun r => !(r.validate reg).1) = [] := hiff.mpr hall
    simp [run_registration, hrun, hnil, hall]
  · have hne : rules.filter (fun r => !(r.validate reg).1) ≠ [] := by
      intro hc
      exact hall (hiff.mp hc)
    have hb : rules.all (fun r => (r.validate reg).1) = false := by
      simpa [Bool.not_eq_true] using hall
    have hne' :
        ((rules.filter (fun r => !(r.validate reg).1)).map
          (fun r => (r.validate reg).2)).isEmpty = false := by
      simp [List.isEmpty_iff, hne]
    simp [run_registration, hrun, hb, hne']

/-- C7: a service with an empty rule list always passes with the single
default success message; repeating a rule is also a valid configuration
and the overall outcome is still that rule's own outcome. -/
theorem run_registration_empty_rules (reg : Registration) :
    run_registration [] reg = (true, ["Validasi sukses."])
    ∧ ∀ r : IValidationRule,
        (run_registration [r, r] reg).1 = (r.validate reg).1 := by
  constructor
  · rfl
  · intro r
    by_cases h : (r.validate reg).1
    · simp [run_registration, runRules, h]
    · simp only [Bool.not_eq_true] at h
      simp [run_registration, runRules, h]

/-- C2: `SksLimitRule` passes exactly when the total SKS of the selected
courses is at most `max_sks`; the boundary total = max passes; an empty
selection always passes (for a configured positive cap); on failure the
message reports the total and the cap. -/
theorem sksLimitRule_spec (max_sks : Int) (reg : Registration)
    (hpos : 0 < max_sks) :
    (((IValidationRule.SksLimitRule max_sks).validate reg).1 = true ↔
        totalSks reg ≤ max_sks)
    ∧ (totalSks reg = max_sks →
        ((IValidationRule.SksLimitRule max_sks).validate reg).1 = true)
    ∧ (reg.selected_courses = [] →
        ((IValidationRule.SksLimitRule max_sks).validate reg).1 = true)
    ∧ (max_sks < totalSks reg →
        ((IValidationRule.SksLimitRule max_sks).validate reg).2 =
          sksLimitMsg (totalSks reg) max_sks) := by
  refine ⟨?_, ?_, ?_, ?_⟩
  · by_cases h : totalSks reg > max_sks
    · simp only [IValidationRule.validate, if_pos h]
      constructor
      · intro hb
        exact absurd hb (by simp)
      · intro hle
        omega
    · simp only [IValidationRule.validate, if_neg h]
      constructor
      · intro _
        omega
      · intro _
        trivial
  · intro h
    simp [IValidationRule.validate, h]
  · intro h
    have h0 : totalSks reg = 0 := by simp [totalSks, h]
    have : ¬ totalSks reg > max_sks := by omega
    simp [IValidationRule.validate, this]
  · intro h
    have hgt : totalSks reg > max_sks := h
    simp [IValidationRule.validate, hgt]

/-- Witness for C2 at scenario 2 of the spec: cap 5, selected credits
3 and 4, total 7 exceeds 5. -/
theorem sksLimitRule_spec_witness :
    (0 : Int) < 5
    ∧ ((IValidationRule.SksLimitRule 5).validate
        ⟨"Budi", [], [mat101, fis201]⟩).1 = false
    ∧ ((IValidationRule.SksLimitRule 5).validate
        ⟨"Budi", [], [mat101, fis201]⟩).2 =
        "Total SKS (7) melebihi batas maksimum (5)." := by
  refine ⟨by decide, ?_, ?_⟩
  · have h := (sksLimitRule_spec 5 ⟨"Budi", [], [mat101, fis201]⟩
      (by decide)).1
    have htot : ¬ totalSks ⟨"Budi", [], [mat101, fis201]⟩ ≤ 5 := by decide
    by_cases hb : ((IValidationRule.SksLimitRule 5).validate
        ⟨"Budi", [], [mat101, fis201]⟩).1 = true
    · exact absurd (h.mp hb) htot
    · simpa using hb
  · have h := (sksLimitRule_spec 5 ⟨"Budi", [], [mat101, fis201]⟩
      (by decide)).2.2.2 (by decide)
    simpa using h

section PrereqLemmas

lemma mem_missingPrereqs (reg : Registration) (cc p : String) :
    (cc, p) ∈ missingPrereqs reg ↔
      ∃ c ∈ reg.selected_courses, c.code = cc ∧ p ∈ c.prerequisites ∧
        p ∉ reg.completed_courses := by
  simp only [missingPrereqs, List.mem_flatMap, List.mem_map, List.mem_filter]
  constructor
  · rintro ⟨c, hc, pre, ⟨hpre, hnc⟩, heq⟩
    refine ⟨c, hc, ?_, ?_, ?_⟩
    · exact (Prod.mk.injEq _ _ _ _ ▸ heq).1
    · have : pre = p := (Prod.mk.injEq _ _ _ _ ▸ heq).2
      exact this ▸ hpre
    · have hp : pre = p := (Prod.mk.injEq _ _ _ _ ▸ heq).2
      intro hmem
      rw [hp] at hnc
      simp [List.elem_iff] at hnc
      exact hnc hmem
  · rintro ⟨c, hc, hcode, hp, hnc⟩
    refine ⟨c, hc, p, ⟨hp, ?_⟩, by simp [hcode]⟩
    simp [List.elem_iff]
    intro hmem
    exact hnc hmem

lemma missingPrereqs_eq_nil_iff (reg : Registration) :
    missingPrereqs reg = [] ↔
      ∀ c ∈ reg.selected_courses, ∀ p ∈ c.prerequisites,
        p ∈ reg.completed_courses := by
  simp only [missingPrereqs, List.flatMap_eq_nil_iff, List.map_eq_nil_iff,
    List.filter_eq_nil_iff]
  constructor
  · intro h c hc pre hpre
    have := h c hc pre hpre
    simpa [List.elem_iff] using this
  · intro h c hc pre hpre
    simp only [Bool.not_eq_true'] at *
    simpa [List.elem_iff] using h c hc pre hpre

end PrereqLemmas

/-- C3: `PrerequisiteRule` passes exactly when every prerequisite of
every selected course is in the completed-course set; ALL
`(course, missing prerequisite)` pairs are collected (the rule never
stops at the first miss), with the single failure message built from the
full pair list; a course with no prerequisites contributes no pair; a
prerequisite is flagged whenever it is absent from the completed set,
even when it is itself among the selected courses (co-selection never
satisfies a prerequisite). -/
theorem prerequisiteRule_spec (reg : Registration) :
    ((IValidationRule.PrerequisiteRule.validate reg).1 = true ↔
        ∀ c ∈ reg.selected_courses, ∀ p ∈ c.prerequisites,
          p ∈ reg.completed_courses)
    ∧ (∀ cc p, (cc, p) ∈ missingPrereqs reg ↔
        ∃ c ∈ reg.selected_courses, c.code = cc ∧ p ∈ c.prerequisites ∧
          p ∉ reg.completed_courses)
    ∧ (∀ c ∈ reg.selected_courses, ∀ p ∈ c.prerequisites,
        p ∉ reg.completed_courses →
          (c.code, p) ∈ missingPrereqs reg ∧
          (IValidationRule.PrerequisiteRule.validate reg).1 = false)
    ∧ ((IValidationRule.PrerequisiteRule.validate reg).1 = false →
        (IValidationRule.PrerequisiteRule.validate reg).2 =
          prereqMsg (missingPrereqs reg))
    ∧ (∀ (l1 l2 : List Course) (c : Course), c.prerequisites = [] →
        missingPrereqs
            ⟨reg.student_name, reg.completed_courses, l1 ++ c :: l2⟩ =
          missingPrereqs
            ⟨reg.student_name, reg.completed_courses, l1 ++ l2⟩) := by
  refine ⟨?_, mem_missingPrereqs reg, ?_, ?_, ?_⟩
  · by_cases h : missingPrereqs reg = []
    · simp [IValidationRule.validate, h, missingPrereqs_eq_nil_iff reg]
      exact (missingPrereqs_eq_nil_iff reg).mp h
    · have : (missingPrereqs reg).isEmpty = false := by
        simp [List.isEmpty_iff, h]
      simp [IValidationRule.validate, this]
      have hnall : ¬ ∀ c ∈ reg.selected_courses, ∀ p ∈ c.prerequisites,
          p ∈ reg.completed_courses :=
        fun hall => h ((missingPrereqs_eq_nil_iff reg).mpr hall)
      push_neg at hnall
      exact hnall
  · intro c hc p hp hnc
    have hmem : (c.code, p) ∈ missingPrereqs reg :=
      (mem_missingPrereqs reg c.code p).mpr ⟨c, hc, rfl, hp, hnc⟩
    have hne : missingPrereqs reg ≠ [] := by
      intro h0
      rw [h0] at hmem
      exact absurd hmem (List.not_mem_nil _)
    have : (missingPrereqs reg).isEmpty = false := by
      simp [List.isEmpty_iff, hne]
    exact ⟨hmem, by simp [IValidationRule.validate, this]⟩
  · intro hfail
    by_cases h : (missingPrereqs reg).isEmpty
    · simp [IValidationRule.validate, h] at hfail
    · simp only [Bool.not_eq_true] at h
      simp [IValidationRule.validate, h]
  · intro l1 l2 c hpre
    simp [missingPrereqs, hpre]

/-- Witness for C3 at scenario 3 of the spec: course A requires X, the
completed set is empty, so the rule fails and flags `(A, X)` even though
a course coded X is co-selected. -/
theorem prerequisiteRule_spec_witness :
    (("A", "X") ∈
        missingPrereqs ⟨"Citra", [],
          [⟨"A", "A", 3, ["X"], []⟩, ⟨"X", "X", 2, [], []⟩]⟩)
    ∧ (IValidationRule.PrerequisiteRule.validate
        ⟨"Citra", [],
          [⟨"A", "A", 3, ["X"], []⟩, ⟨"X", "X", 2, [], []⟩]⟩).1 = false := by
  have h := (prerequisiteRule_spec
    ⟨"Citra", [], [⟨"A", "A", 3, ["X"], []⟩, ⟨"X", "X", 2, [], []⟩]⟩).2.2.1
    ⟨"A", "A", 3, ["X"], []⟩ (by simp) "X" (by simp) (by simp)
  simpa using h

section ConflictLemmas

lemma findPartner_eq_none_iff (e : Entry) (l : List Entry) :
    findPartner e l = none ↔ ∀ f ∈ l, conflictB e f = false := by
  induction l with
  | nil => simp [findPartner]
  | cons g rest ih =>
    by_cases h : conflictB e g
    · simp [findPartner, h]
    · simp only [Bool.not_eq_true] at h
      simp [findPartner, h, ih]

lemma findPartner_eq_some_spec (e : Entry) (l : List Entry) (f : Entry)
    (h : findPartner e l = some f) :
    ∃ j : Nat, l[j]? = some f ∧ conflictB e f = true ∧
      ∀ k : Nat, k < j → ∀ y, l[k]? = some y → conflictB e y = false := by
  induction l with
  | nil => simp [findPartner] at h
  | cons g rest ih =>
    by_cases hc : conflictB e g
    · have hf : g = f := by simpa [findPartner, hc] using h
      subst hf
      exact ⟨0, by simp, hc, by omega⟩
    · simp only [Bool.not_eq_true] at hc
      have h' : findPartner e rest = some f := by
        simpa [findPartner, hc] using h
      obtain ⟨j, hj, hcf, hmin⟩ := ih h'
      refine ⟨j + 1, by simpa using hj, hcf, ?_⟩
      intro k hk y hy
      clear h
      cases k with
      | zero =>
        have : g = y := by simpa using hy
        exact this ▸ hc
      | succ k0 =>
        have hy' : rest[k0]? = some y := by simpa using hy
        exact hmin k0 (by omega) y hy'

lemma findConflict_eq_none_iff (l : List Entry) :
    findConflict l = none ↔
      l.Pairwise (fun a b => conflictB a b = false) := by
  induction l with
  | nil => simp [findConflict]
  | cons e rest ih =>
    cases hp : findPartner e rest with
    | some f =>
      obtain ⟨j, hj, hcf, -⟩ := findPartner_eq_some_spec e rest f hp
      have hfm : f ∈ rest := List.getElem?_mem hj
      simp only [findConflict, hp, List.pairwise_cons]
      constructor
      · intro hc
        exact absurd hc (by simp)
      · rintro ⟨hall, -⟩
        rw [hall f hfm] at hcf
        exact absurd hcf (by simp)
    | none =>
      have hall := (findPartner_eq_none_iff e rest).mp hp
      simp only [findConflict, hp]
      rw [ih, List.pairwise_cons]
      exact ⟨fun h2 => ⟨hall, h2⟩, fun h2 => h2.2⟩

lemma findConflict_eq_some_spec (l : List Entry) (a b : Entry)
    (h : findConflict l = some (a, b)) :
    ∃ i j : Nat, i < j ∧ l[i]? = some a ∧ l[j]? = some b ∧
      conflictB a b = true ∧
      ∀ i' j' : Nat, i' < j' → (i' < i ∨ (i' = i ∧ j' < j)) →
        ∀ x y, l[i']? = some x → l[j']? = some y →
          conflictB x y = false := by
  induction l generalizing a b with
  | nil => simp [findConflict] at h
  | cons e rest ih =>
    cases hp : findPartner e rest with
    | some f =>
      rw [findConflict, hp] at h
      obtain ⟨he, hf⟩ : a = e ∧ b = f := by
        have h2 := h.symm
        simpa [Prod.ext_iff] using h2
      rw [he, hf]
      obtain ⟨j0, hj0, hcf, hmin⟩ := findPartner_eq_some_spec e rest f hp
      refine ⟨0, j0 + 1, Nat.succ_pos _, by simp, by simpa using hj0,
        hcf, ?_⟩
      intro i' j' hij hlex x y hx hy
      rcases hlex with h0 | ⟨hi0, hj'⟩
      · omega
      · subst hi0
        have hx' : e = x := by simpa using hx
        cases j' with
        | zero => omega
        | succ k =>
          have hy' : rest[k]? = some y := by simpa using hy
          exact hx' ▸ hmin k (by omega) y hy'
    | none =>
      rw [findConflict, hp] at h
      obtain ⟨i, j, hij, ha, hb, hcab, hmin⟩ := ih _ _ h
      refine ⟨i + 1, j + 1, by omega, by simpa using ha,
        by simpa using hb, hcab, ?_⟩
      intro i' j' hij' hlex x y hx hy
      cases i' with
      | zero =>
        have hx' : e = x := by simpa using hx
        cases j' with
        | zero => omega
        | succ k =>
          have hy' : rest[k]? = some y := by simpa using hy
          have hmemy : y ∈ rest := List.getElem?_mem hy'
          exact hx' ▸ (findPartner_eq_none_iff e rest).mp hp y hmemy
      | succ i0 =>
        cases j' with
        | zero => omega
        | succ k =>
          have hx' : rest[i0]? = some x := by simpa using hx
          have hy' : rest[k]? = some y := by simpa using hy
          refine hmin i0 k (by omega) ?_ x y hx' hy'
          rcases hlex with h1 | ⟨h2, h3⟩
          · left; omega
          · right; exact ⟨by omega, by omega⟩

lemma findConflict_mem (l : List Entry) (a b : Entry)
    (h : findConflict l = some (a, b)) : a ∈ l ∧ b ∈ l := by
  obtain ⟨i, j, -, ha, hb, -, -⟩ := findConflict_eq_some_spec l a b h
  exact ⟨List.getElem?_mem ha, List.getElem?_mem hb⟩

lemma conflictB_iff (a b : Entry) :
    conflictB a b = true ↔
      a.day = b.day ∧ a.start < b.stop ∧ b.start < a.stop := by
  simp [conflictB, and_assoc]

end ConflictLemmas

/-- C4: `JadwalBentrokRule` passes exactly when no two entries of the
flattened schedule list (courses in selection order, entries in schedule
order) share a day and overlap under half-open semantics
(`start_a < end_b` and `start_b < end_a`); adjacent same-day intervals
(`end_a = start_b`) are never a conflict. -/
theorem jadwalBentrokRule_spec (reg : Registration) :
    ((IValidationRule.JadwalBentrokRule.validate reg).1 = true ↔
        (entriesOf reg).Pairwise (fun a b =>
          ¬ (a.day = b.day ∧ a.start < b.stop ∧ b.start < a.stop)))
    ∧ (∀ (d c1 c2 : String) (s1 e1 e2 : Nat),
        conflictB (d, s1, e1, c1) (d, e1, e2, c2) = false) := by
  constructor
  · have hpair : (entriesOf reg).Pairwise (fun a b => conflictB a b = false)
        ↔ (entriesOf reg).Pairwise (fun a b =>
          ¬ (a.day = b.day ∧ a.start < b.stop ∧ b.start < a.stop)) := by
      constructor
      · intro h
        refine h.imp ?_
        intro a b hab
        rw [← conflictB_iff]
        simp [hab]
      · intro h
        refine h.imp ?_
        intro a b hab
        have := (conflictB_iff a b).not.mpr hab
        simpa using this
    rw [← hpair, ← findConflict_eq_none_iff]
    cases hc : findConflict (entriesOf reg) with
    | none => simp [IValidationRule.validate, hc]
    | some p =>
      obtain ⟨a, b⟩ := p
      simp [IValidationRule.validate, hc]
  · intro d c1 c2 s1 e1 e2
    simp [conflictB, Entry.day, Entry.start, Entry.stop]

/-- C5: when the flattened entry list contains a conflict,
`JadwalBentrokRule` returns immediately with the message naming the two
entries of the FIRST overlapping pair in scan order (outer index `i`
ascending, inner index `j` from `i+1`, over the flattened list built
from the courses in selection order and each course's schedule in its
given order): every pair earlier in that lexicographic order does not
conflict, so later conflicts never influence the returned message. -/
theorem jadwalBentrokRule_first_conflict (reg : Registration)
    (a b : Entry) (h : findConflict (entriesOf reg) = some (a, b)) :
    IValidationRule.JadwalBentrokRule.validate reg = (false, bentrokMsg a b)
    ∧ ∃ i j : Nat, i < j ∧ (entriesOf reg)[i]? = some a ∧
        (entriesOf reg)[j]? = some b ∧ conflictB a b = true ∧
        ∀ i' j' : Nat, i' < j' → (i' < i ∨ (i' = i ∧ j' < j)) →
          ∀ x y, (entriesOf reg)[i']? = some x →
            (entriesOf reg)[j']? = some y → conflictB x y = false := by
  refine ⟨?_, findConflict_eq_some_spec _ a b h⟩
  simp [IValidationRule.validate, h]

/-- Witness for C5 at the demo registration: MAT101's Monday entry and
FIS201's Monday entry are the first (and only) conflicting pair. -/
theorem jadwalBentrokRule_first_conflict_witness :
    findConflict (entriesOf regScenario4) =
      some (("Senin", 540, 660, "MAT101"), ("Senin", 630, 720, "FIS201"))
    ∧ IValidationRule.JadwalBentrokRule.validate regScenario4 =
      (false, bentrokMsg ("Senin", 540, 660, "MAT101")
        ("Senin", 630, 720, "FIS201")) :=
  ⟨by decide,
    (jadwalBentrokRule_first_conflict regScenario4
      ("Senin", 540, 660, "MAT101") ("Senin", 630, 720, "FIS201")
      (by decide)).1⟩

/-- C9: for MAT101 (Senin 09:00-11:00) and FIS201 (Senin 10:30-12:00)
selected together, the schedule rule fails and its message contains both
course codes and the zero-padded times `09:00-11:00` and `10:30-12:00`. -/
theorem scenario4_conflict_message :
    (IValidationRule.JadwalBentrokRule.validate regScenario4).1 = false
    ∧ (IValidationRule.JadwalBentrokRule.validate regScenario4).2 =
        "Jadwal bentrok antara MAT101 (09:00-11:00) dan FIS201 (10:30-12:00)"
    ∧ List.IsInfix "MAT101".data
        ((IValidationRule.JadwalBentrokRule.validate regScenario4).2).data
    ∧ List.IsInfix "FIS201".data
        ((IValidationRule.JadwalBentrokRule.validate regScenario4).2).data
    ∧ List.IsInfix "09:00-11:00".data
        ((IValidationRule.JadwalBentrokRule.validate regScenario4).2).data
    ∧ List.IsInfix "10:30-12:00".data
        ((IValidationRule.JadwalBentrokRule.validate regScenario4).2).data := by
  refine ⟨by decide, by decide, ?_, ?_, ?_, ?_⟩ <;> decide

section LoggingLemmas

lemma validateLogged_fst (r : IValidationRule) (reg : Registration)
    (sink : List String) :
    (validateLogged r reg sink).1 = r.validate reg := by
  cases r with
  | SksLimitRule max_sks =>
    by_cases h : totalSks reg > max_sks <;>
      simp [validateLogged, IValidationRule.validate, h]
  | PrerequisiteRule =>
    by_cases h : (missingPrereqs reg).isEmpty <;>
      simp_all [validateLogged, IValidationRule.validate]
  | JadwalBentrokRule =>
    cases hc : findConflict (entriesOf reg) with
    | none => simp [validateLogged, IValidationRule.validate, hc]
    | some p =>
      obtain ⟨a, b⟩ := p
      simp [validateLogged, IValidationRule.validate, hc]

lemma runRulesLogged_fst (rules : List IValidationRule)
    (reg : Registration) (errors sink : List String) :
    (runRulesLogged rules reg errors sink).1 = runRules rules reg errors := by
  induction rules generalizing errors sink with
  | nil => simp [runRulesLogged, runRules]
  | cons r rs ih =>
    simp only [runRulesLogged, runRules, validateLogged_fst]
    exact ih _ _

end LoggingLemmas

/-- C6: `run_registration` is deterministic and independent of the
logging side channel: the result of the logged run does not depend on
the contents of the log sink, equals the pure `run_registration`, and a
second call on the sink left by the first call returns the same result. -/
theorem run_registration_deterministic (rules : List IValidationRule)
    (reg : Registration) (sink1 sink2 : List String) :
    (run_registrationLogged rules reg sink1).1 = run_registration rules reg
    ∧ (run_registrationLogged rules reg sink1).1 =
        (run_registrationLogged rules reg sink2).1
    ∧ (run_registrationLogged rules reg
          ((run_registrationLogged rules reg sink1).2)).1 =
        (run_registrationLogged rules reg sink1).1 := by
  have key : ∀ sink : List String,
      (run_registrationLogged rules reg sink).1 =
        run_registration rules reg := by
    intro sink
    by_cases h : (runRules rules reg []).isEmpty <;>
      simp_all [run_registrationLogged, run_registration, runRulesLogged_fst]
  exact ⟨key sink1, (key sink1).trans (key sink2).symm,
    (key _).trans (key sink1).symm⟩

section FrameLemmas

lemma validateSt_eq (r : IValidationRule) (reg : Registration) :
    validateSt r reg = (r.validate reg, r, reg) := by
  cases r with
  | SksLimitRule max_sks =>
    by_cases h : totalSks reg > max_sks <;>
      simp [validateSt, IValidationRule.validate, h]
  | PrerequisiteRule =>
    by_cases h : (missingPrereqs reg).isEmpty <;>
      simp_all [validateSt, IValidationRule.validate]
  | JadwalBentrokRule =>
    cases hc : findConflict (entriesOf reg) with
    | none => simp [validateSt, IValidationRule.validate, hc]
    | some p =>
      obtain ⟨a, b⟩ := p
      simp [validateSt, IValidationRule.validate, hc]

lemma runRulesSt_eq (rules : List IValidationRule) (reg : Registration)
    (errors : List String) :
    runRulesSt rules reg errors = (runRules rules reg errors, rules, reg) := by
  induction rules generalizing errors with
  | nil => simp [runRulesSt, runRules]
  | cons r rs ih =>
    simp [runRulesSt, runRules, validateSt_eq, ih]

end FrameLemmas

/-- C8: the run is side-effect-free on its inputs: after a call the rule
list and the registration (hence its student identifier, completed
courses and selected `Course` values) are exactly the inputs, the result
is the pure `run_registration`, and each single `validate` call leaves
its rule value (hence its configuration such as the credit cap) and the
registration unchanged — no rule retains per-call state. -/
theorem run_registration_frame (rules : List IValidationRule)
    (reg : Registration) :
    (run_registrationSt rules reg).2.1 = rules
    ∧ (run_registrationSt rules reg).2.2 = reg
    ∧ (run_registrationSt rules reg).1 = run_registration rules reg
    ∧ ∀ r : IValidationRule, validateSt r reg = (r.validate reg, r, reg) := by
  have h := runRulesSt_eq rules reg []
  refine ⟨?_, ?_, ?_, fun r => validateSt_eq r reg⟩ <;>
    by_cases hc : (runRules rules reg []).isEmpty <;>
      simp_all [run_registrationSt, run_registration]

section SelfConflictLemmas

lemma sublist_flatMap_of_mem {α β : Type} (f : α → List β) (l : List α)
    (c : α) (hc : c ∈ l) : (f c).Sublist (l.flatMap f) := by
  induction l with
  | nil => cases hc
  | cons d rest ih =>
    rcases List.mem_cons.mp hc with h | h
    · subst h
      rw [List.flatMap_cons]
      exact List.sublist_append_left _ _
    · rw [List.flatMap_cons]
      exact (ih h).trans (List.sublist_append_right _ _)

end SelfConflictLemmas

/-- C10 (amended): the all-pairs scan does not require the two entries
of a pair to belong to distinct courses, so a single selected course
whose own schedule contains two same-day half-open-overlapping intervals
makes `JadwalBentrokRule` fail; and when that course is the only
selected course, the failure message names that same course code as both
members of the conflicting pair. -/
theorem selfConflict_spec (reg : Registration) (c : Course)
    (e1 e2 : ScheduleEntry) (hc : c ∈ reg.selected_courses)
    (hsub : [e1, e2].Sublist c.schedule)
    (hday : e1.1 = e2.1) (h1 : e1.2.1 < e2.2.2) (h2 : e2.2.1 < e1.2.2) :
    (IValidationRule.JadwalBentrokRule.validate reg).1 = false
    ∧ (reg.selected_courses = [c] →
        ∃ a b : Entry, findConflict (entriesOf reg) = some (a, b) ∧
          a.course = c.code ∧ b.course = c.code ∧
          (IValidationRule.JadwalBentrokRule.validate reg).2 =
            bentrokMsg a b) := by
  have hconf : conflictB (tagEntry c e1) (tagEntry c e2) = true := by
    simp [conflictB, tagEntry, Entry.day, Entry.start, Entry.stop,
      hday, h1, h2]
  have hsub2 : [tagEntry c e1, tagEntry c e2].Sublist (entriesOf reg) := by
    have hmap : [tagEntry c e1, tagEntry c e2].Sublist
        (c.schedule.map (tagEntry c)) := by
      simpa using hsub.map (tagEntry c)
    exact hmap.trans
      (sublist_flatMap_of_mem (fun course => course.schedule.map
        (tagEntry course)) reg.selected_courses c hc)
  have hnone : findConflict (entriesOf reg) ≠ none := by
    intro h0
    have hpw := (findConflict_eq_none_iff _).mp h0
    have hpw2 := hpw.sublist hsub2
    rw [List.pairwise_cons] at hpw2
    have hf := hpw2.1 (tagEntry c e2) (by simp)
    rw [hconf] at hf
    cases hf
  cases hfc : findConflict (entriesOf reg) with
  | none => exact absurd hfc hnone
  | some p =>
    obtain ⟨a, b⟩ := p
    refine ⟨by simp [IValidationRule.validate, hfc], ?_⟩
    intro hsel
    obtain ⟨ha, hb⟩ := findConflict_mem _ a b hfc
    have hent : entriesOf reg = c.schedule.map (tagEntry c) := by
      simp [entriesOf, hsel]
    rw [hent] at ha hb
    obtain ⟨x, -, hx⟩ := List.mem_map.mp ha
    obtain ⟨y, -, hy⟩ := List.mem_map.mp hb
    refine ⟨a, b, rfl, ?_, ?_, by simp [IValidationRule.validate, hfc]⟩
    · rw [← hx]; rfl
    · rw [← hy]; rfl

/-- Witness for C10 (amended): the only selected course KIM has two
overlapping Monday entries; the rule fails naming KIM twice. -/
theorem selfConflict_spec_witness :
    (IValidationRule.JadwalBentrokRule.validate regKimia).1 = false
    ∧ ∃ a b : Entry, findConflict (entriesOf regKimia) = some (a, b) ∧
        a.course = "KIM" ∧ b.course = "KIM" ∧
        (IValidationRule.JadwalBentrokRule.validate regKimia).2 =
          bentrokMsg a b := by
  have h := selfConflict_spec regKimia courseKimia
    ("Senin", 0, 10) ("Senin", 5, 15)
    (by simp [regKimia]) (List.Sublist.refl _) rfl (by decide) (by decide)
  exact ⟨h.1, by simpa [courseKimia] using h.2 rfl⟩

/-- Counterexample to C10 as stated: in `regMasked` the selected course
GAMA has two same-day overlapping intervals of its own, yet the failure
message does not name GAMA at all (the earlier ALFA/BETA pair is
reported), so the message does not name that course as both members. -/
theorem selfConflict_message_counterexample :
    courseGamma ∈ regMasked.selected_courses
    ∧ [(("Senin", 100, 110) : ScheduleEntry),
        ("Senin", 105, 115)].Sublist courseGamma.schedule
    ∧ ((("Senin", 100, 110) : ScheduleEntry).1 =
        (("Senin", 105, 115) : ScheduleEntry).1)
    ∧ (100 : Nat) < 115 ∧ (105 : Nat) < 110
    ∧ (IValidationRule.JadwalBentrokRule.validate regMasked).1 = false
    ∧ (IValidationRule.JadwalBentrokRule.validate regMasked).2 =
        "Jadwal bentrok antara ALFA (00:00-00:10) dan BETA (00:05-00:15)"
    ∧ ¬ List.IsInfix "GAMA".data
        ((IValidationRule.JadwalBentrokRule.validate regMasked).2).data := by
  refine ⟨by decide, List.Sublist.refl _, rfl, by decide, by decide,
    by decide, by decide, by decide⟩
